import Mathlib

/-!
Verification of the River-Sense geometry core (`src/App.tsx`).

The reusable logic of the repository consists of a WKT polygon parser
(`parseWKTPolygon`), an axis-aligned bounds computation (`getBounds`),
a centroid label-placement heuristic (`findOptimalLabelPosition`),
the validation pipeline in `processWKT`, and the viewport projection
(`transform` / `toSVG`).  This file embeds those functions shallowly:
JavaScript numbers are modelled by `JSVal` (a rational, the NaN sentinel,
or `undefined`), strings by `List Char`.
-/

namespace RiverSense

/- The Batteries rational operations are `@[irreducible]`, which blocks
kernel evaluation of concrete pipeline runs; restore the default
transparency for them within this development. -/
attribute [local semireducible] Rat.add Rat.sub Rat.mul Rat.inv

/-- Models a JavaScript number-or-undefined value as it flows through the
geometry pipeline: a finite number (as a rational), the `NaN` sentinel
produced by failed numeric conversion, or `undefined` (a missing second
coordinate token).  Signed zero and the infinities do not arise at any
call site reached by the pipeline (division only ever has a zero divisor
together with a zero dividend, where JS also yields `NaN`), so they are
not represented. -/
inductive JSVal where
  | num (q : ℚ)
  | nan
  | undefined
deriving DecidableEq, Repr

namespace JSVal

/-- JS addition (`+`) restricted to the values above: `NaN` and
`undefined` are absorbing, as in JS (`undefined + x` is `NaN`). -/
def jsAdd : JSVal → JSVal → JSVal
  | num a, num b => num (a + b)
  | _, _ => nan

/-- JS subtraction (`-`). -/
def jsSub : JSVal → JSVal → JSVal
  | num a, num b => num (a - b)
  | _, _ => nan

/-- JS multiplication (`*`). -/
def jsMul : JSVal → JSVal → JSVal
  | num a, num b => num (a * b)
  | _, _ => nan

/-- JS division (`/`).  A zero divisor only occurs in the source together
with a zero dividend (`0/0`), where JS yields `NaN`, matching this model. -/
def jsDiv : JSVal → JSVal → JSVal
  | num a, num b => if b = 0 then nan else num (a / b)
  | _, _ => nan

/-- `Math.min` on two arguments: `NaN` (and coerced `undefined`) is
contagious. -/
def jsMin : JSVal → JSVal → JSVal
  | num a, num b => num (min a b)
  | _, _ => nan

/-- `Math.max` on two arguments. -/
def jsMax : JSVal → JSVal → JSVal
  | num a, num b => num (max a b)
  | _, _ => nan

/-- `Math.min(...list)`: the spread call folds `jsMin` over the values.
The empty case (JS `+Infinity`) is never reached: every call site passes
a list with at least one element. -/
def jsMathMin : List JSVal → JSVal
  | [] => nan
  | a :: rest => rest.foldl jsMin a

/-- `Math.max(...list)`; the empty case (JS `-Infinity`) is unreachable. -/
def jsMathMax : List JSVal → JSVal
  | [] => nan
  | a :: rest => rest.foldl jsMax a

end JSVal

open JSVal

/-- The `Point` interface from `types.ts`: a pair of JS number values. -/
structure Point where
  x : JSVal
  y : JSVal
deriving DecidableEq, Repr

/-- The `Bounds` interface from `types.ts`. -/
structure Bounds where
  minX : JSVal
  minY : JSVal
  maxX : JSVal
  maxY : JSVal
  width : JSVal
  height : JSVal
deriving DecidableEq, Repr

/-- The object literal returned by `findOptimalLabelPosition` in
`App.tsx` (the `LabelResult` interface also declares a `method` field,
but the function never sets it, so it is absent here).  The font-size
driven fields are plain finite numbers in the source (the UI slider
supplies an integer), modelled as rationals. -/
structure LabelResult where
  position : Point
  rotation : ℚ
  actualFontSize : ℚ
  textWidth : ℚ
  textHeight : ℚ
  isInside : Bool
deriving DecidableEq, Repr

/-- The `RiverData` interface from `types.ts`. -/
structure RiverData where
  name : String
  points : List Point
  bounds : Bounds
deriving DecidableEq, Repr

/-! ### Character-level string operations

JavaScript strings are modelled as `List Char`.  `isWS` models the
whitespace class `\s` (restricted to the common ASCII whitespace
characters; the exotic Unicode members never occur in the inputs
considered). -/

/-- The whitespace characters recognised by `trim`, `\s*` and `\s+`. -/
def isWS (c : Char) : Bool :=
  c == ' ' || c == '\t' || c == '\n' || c == '\r' ||
    c == Char.ofNat 11 || c == Char.ofNat 12

/-- Drop leading whitespace. -/
def dropWS : List Char → List Char
  | [] => []
  | c :: rest => if isWS c then dropWS rest else c :: rest

/-- `String.prototype.trim`: drop leading and trailing whitespace. -/
def trimChars (l : List Char) : List Char :=
  (dropWS ((dropWS l).reverse)).reverse

/-- `str.split(sep)` for a single-character separator: always returns at
least one fragment; an empty string yields `[[]]`. -/
def splitOnChar (sep : Char) : List Char → List (List Char)
  | [] => [[]]
  | a :: rest =>
    match splitOnChar sep rest with
    | [] => [[]]
    | f :: fs => if a = sep then [] :: f :: fs else (a :: f) :: fs

/-- `str.split(/\s+/)`: maximal whitespace runs separate the tokens; a
leading (resp. trailing) run contributes a leading (resp. trailing)
empty token, and the empty string yields `[[]]`, as in JS. -/
def splitWS : List Char → List (List Char)
  | [] => [[]]
  | a :: rest =>
    match splitWS rest with
    | [] => [[]]
    | t :: ts =>
      if isWS a then
        match rest with
        | [] => [[], []]
        | b :: _ => if isWS b then t :: ts else [] :: t :: ts
      else (a :: t) :: ts

/-! ### Numeric conversion

`jsNumber` models the JS `Number(string)` conversion on the tokens the
parser feeds it: after trimming, the empty string converts to `0`, a
decimal literal (optional sign, digits, optional fractional part)
converts to its value, and anything else converts to `NaN`.  (Hexadecimal
and exponent forms of `StringNumericLiteral` are outside the decimal
grammar used here and never occur in the inputs considered.) -/

/-- Value of a non-empty all-digit run, or `none`. -/
def digitsVal : List Char → Option ℕ
  | [] => none
  | l => l.foldl (fun acc c =>
      match acc with
      | none => none
      | some n => if c.isDigit then some (n * 10 + (c.toNat - 48)) else none)
      (some 0)

/-- Value of a possibly-empty all-digit run (empty ↦ 0), or `none`. -/
def digitsValOpt : List Char → Option ℕ
  | [] => some 0
  | l => digitsVal l

/-- Parse an unsigned decimal literal `digits`, `digits.digits?`, or
`.digits`; a bare `.` or any other shape is `none`. -/
def parseUnsigned (l : List Char) : Option ℚ :=
  match splitOnChar '.' l with
  | [intPart] => (digitsVal intPart).map (fun n => (n : ℚ))
  | [intPart, fracPart] =>
    if intPart = [] ∧ fracPart = [] then none
    else
      match digitsValOpt intPart, digitsValOpt fracPart with
      | some i, some f => some ((i : ℚ) + (f : ℚ) / (10 : ℚ) ^ fracPart.length)
      | _, _ => none
  | _ => none

/-- `Number(string)` on the decimal grammar described above. -/
def jsNumber (l : List Char) : JSVal :=
  match trimChars l with
  | [] => .num 0
  | '+' :: rest =>
    match parseUnsigned rest with
    | some q => .num q
    | none => .nan
  | '-' :: rest =>
    match parseUnsigned rest with
    | some q => .num (-q)
    | none => .nan
  | t =>
    match parseUnsigned t with
    | some q => .num q
    | none => .nan

/-! ### The WKT parser (`parseWKTPolygon`, `App.tsx` lines 5–15) -/

/-- The literal pattern `POLYGON`. -/
def polyPat : List Char := "POLYGON".toList

/-- Case-insensitively strip `pat` from the front of `l`, returning the
remainder on a match. -/
def dropHeadCI : List Char → List Char → Option (List Char)
  | [], l => some l
  | _ :: _, [] => none
  | p :: ps, c :: cs => if c.toLower = p.toLower then dropHeadCI ps cs else none

/-- `.replace(/^POLYGON\s*\(\(/i, '')`: if the string starts with
`POLYGON` (case-insensitive), optional whitespace, and `((`, remove that
prefix; otherwise leave the string unchanged. -/
def stripPolyHead (l : List Char) : List Char :=
  match dropHeadCI polyPat l with
  | none => l
  | some rest =>
    match dropWS rest with
    | '(' :: '(' :: tail => tail
    | _ => l

/-- `.replace(/\)\)$/i, '')`: remove a trailing `))` if present. -/
def stripTailParens (l : List Char) : List Char :=
  match l.reverse with
  | ')' :: ')' :: r => r.reverse
  | _ => l

/-- The cleaning pipeline `wkt.trim().replace(prefix).replace(suffix)`. -/
def cleanWKT (l : List Char) : List Char :=
  stripTailParens (stripPolyHead (trimChars l))

/-- First element of a token list as a JS destructuring target
(`undefined` when absent). -/
def jsNumberTok : Option (List Char) → JSVal
  | some t => jsNumber t
  | none => .undefined

/-- One comma fragment: `pair.trim().split(/\s+/).map(Number)` followed
by the destructuring `[x, y]` (a missing second token leaves `y`
`undefined`). -/
def parseFragment (frag : List Char) : Point :=
  let toks := splitWS (trimChars frag)
  { x := jsNumberTok toks[0]?, y := jsNumberTok toks[1]? }

/-- `parseWKTPolygon` on character lists. -/
def parseWKTPolygonL (l : List Char) : List Point :=
  (splitOnChar ',' (cleanWKT l)).map parseFragment

/-- `parseWKTPolygon` (`App.tsx` lines 5–15). -/
def parseWKTPolygon (s : String) : List Point :=
  parseWKTPolygonL s.toList

/-! ### `getBounds` (`App.tsx` lines 17–34) -/

/-- `getBounds`. -/
def getBounds (points : List Point) : Bounds :=
  let xs := points.map Point.x
  let ys := points.map Point.y
  let minX := jsMathMin xs
  let maxX := jsMathMax xs
  let minY := jsMathMin ys
  let maxY := jsMathMax ys
  { minX := minX, minY := minY, maxX := maxX, maxY := maxY,
    width := jsSub maxX minX, height := jsSub maxY minY }

/-! ### `findOptimalLabelPosition` (`App.tsx` lines 36–52) -/

/-- `findOptimalLabelPosition`: the anchor is the unweighted arithmetic
mean of the vertices (`reduce` of the coordinate sums divided by the
count); every other field is filled from the target font size or a
constant.  The `_text` argument is unused, as in the source. -/
def findOptimalLabelPosition (points : List Point) (_text : String)
    (fontSize : ℚ) : LabelResult :=
  let cx := jsDiv (points.foldl (fun s p => jsAdd s p.x) (.num 0))
      (.num (points.length : ℚ))
  let cy := jsDiv (points.foldl (fun s p => jsAdd s p.y) (.num 0))
      (.num (points.length : ℚ))
  { position := { x := cx, y := cy },
    rotation := 0,
    actualFontSize := fontSize,
    textWidth := fontSize * 6,
    textHeight := fontSize,
    isInside := true }

/-! ### The `processWKT` validation pipeline (`App.tsx` lines 66–93) -/

/-- Error message for fewer than 3 parsed points. -/
def errInvalid : String := "WKT must be a valid POLYGON format."

/-- Error message for degenerate (zero width or height) bounds. -/
def errZero : String := "Polygon has zero area or height."

/-- Error message of the generic `catch` branch. -/
def errGeneric : String := "Failed to parse WKT string."

/-- Default provenance name. -/
def manualEntry : String := "Manual Entry"

/-- Outcome of one `processWKT` run: either a `RiverData` is stored, or
an error message is reported and `riverData` is set to `null`. -/
inductive ProcResult where
  | ok (r : RiverData)
  | error (msg : String)
deriving DecidableEq, Repr

/-- The validation applied to the parsed points inside `processWKT`:
the point-count check (`points.length >= 3`) and the degenerate-bounds
check (`bounds.width === 0 || bounds.height === 0`; a strict equality,
so a `NaN` width or height never fires it). -/
def validatePoints (sourceName : String) (points : List Point) : ProcResult :=
  if 3 ≤ points.length then
    if (getBounds points).width = JSVal.num 0 ∨ (getBounds points).height = JSVal.num 0 then
      .error errZero
    else
      .ok { name := sourceName, points := points, bounds := getBounds points }
  else .error errInvalid

/-- `processWKT`: parse, then validate.  The embedded parser and bounds
computation are total functions, so the source's `catch` branch
(`errGeneric`) has no reachable counterpart. -/
def processWKT (wkt : String) (sourceName : String) : ProcResult :=
  validatePoints sourceName (parseWKTPolygon wkt)

/-! ### Viewport projection (`App.tsx` lines 127–143) -/

/-- Fixed viewport width. -/
def svgWidth : ℚ := 800

/-- Fixed viewport height. -/
def svgHeight : ℚ := 600

/-- Fixed margin. -/
def margin : ℚ := 80

/-- The fields of the `transform` memo. -/
structure Transform where
  scale : JSVal
  offsetX : JSVal
  offsetY : JSVal
deriving DecidableEq, Repr

/-- The `transform` memo in the branch where river data is present:
a uniform scale (the minimum of the two fit ratios) and centring
offsets. -/
def transform (b : Bounds) : Transform :=
  let scale := jsMin (jsDiv (.num (svgWidth - margin * 2)) b.width)
      (jsDiv (.num (svgHeight - margin * 2)) b.height)
  { scale := scale,
    offsetX := jsSub (jsDiv (jsSub (.num svgWidth) (jsMul b.width scale)) (.num 2))
      (jsMul b.minX scale),
    offsetY := jsSub (jsDiv (jsSub (.num svgHeight) (jsMul b.height scale)) (.num 2))
      (jsMul b.minY scale) }

/-- `toSVG`: apply the scale and offset, flipping the vertical axis. -/
def toSVG (t : Transform) (p : Point) : Point :=
  { x := jsAdd (jsMul p.x t.scale) t.offsetX,
    y := jsSub (.num svgHeight) (jsAdd (jsMul p.y t.scale) t.offsetY) }

/-- Embeds a rational pair as a finite-valued `Point`. -/
def toPoint (pr : ℚ × ℚ) : Point :=
  { x := .num pr.1, y := .num pr.2 }

/-! ### Canonical well-formed WKT inputs

`mkWKT` builds the canonical string `POLYGON((x1 y1, x2 y2, ...))` (with
an arbitrary case variant of the `POLYGON` keyword) from a list of
coordinate token pairs. -/

/-- One coordinate fragment `x y`. -/
def coordFrag (pr : List Char × List Char) : List Char :=
  pr.1 ++ ' ' :: pr.2

/-- Join fragments with the separator `sep`. -/
def joinSep (sep : List Char) : List (List Char) → List Char
  | [] => []
  | [a] => a
  | a :: b :: rest => a ++ sep ++ joinSep sep (b :: rest)

/-- The comma-and-space separator of the canonical form. -/
def commaSpace : List Char := [',', ' ']

/-- The body `x1 y1, x2 y2, ...` of the canonical form. -/
def mkWKTBody (prs : List (List Char × List Char)) : List Char :=
  joinSep commaSpace (prs.map coordFrag)

/-- The full canonical input, with keyword `pre` (a case variant of
`POLYGON`). -/
def mkWKT (pre : List Char) (prs : List (List Char × List Char)) : List Char :=
  pre ++ '(' :: '(' :: (mkWKTBody prs ++ [')', ')'])

/-- Whether a `JSVal` is a finite number. -/
def isNumVal : JSVal → Bool
  | .num _ => true
  | _ => false

/-- A numeric coordinate token: non-empty, free of whitespace and commas,
and convertible by `Number` to a finite value. -/
def NumToken (t : List Char) : Prop :=
  t ≠ [] ∧ (∀ c ∈ t, isWS c = false ∧ c ≠ ',') ∧ isNumVal (jsNumber t) = true

instance decNumToken (t : List Char) : Decidable (NumToken t) := by
  unfold NumToken
  infer_instance

/-! ### Concrete inputs used by the witnesses -/

/-- The 5-point square ring of the specification scenario. -/
def squareWKT : String := "POLYGON((0 0, 10 0, 10 10, 0 10, 0 0))"

/-- A 2-point input. -/
def twoPointWKT : String := "POLYGON((0 0, 1 1))"

/-- Three fragments with a malformed `x` token and constant `y`. -/
def badTokenFlatWKT : String := "POLYGON((abc 5, 1 5, 2 5))"

/-- Three fragments with a malformed `x` token and non-degenerate `y`. -/
def badTokenWKT : String := "POLYGON((abc 0, 1 1, 2 0))"

/-- Token pairs of a small well-formed triangle input. -/
def sampleTokens : List (List Char × List Char) :=
  [ ("0".toList, "0".toList), ("10".toList, "0".toList),
    ("10".toList, "10".toList) ]

/-- Embeds six rationals as a finite-valued `Bounds` record. -/
def mkBounds (mnx mny mxx mxy w h : ℚ) : Bounds :=
  { minX := .num mnx, minY := .num mny, maxX := .num mxx, maxY := .num mxy,
    width := .num w, height := .num h }

/-! ## Helper lemmas on the JS arithmetic model -/

theorem jsMin_nan_left (v : JSVal) : jsMin .nan v = .nan := by cases v <;> rfl

theorem jsMin_nan_right (v : JSVal) : jsMin v .nan = .nan := by cases v <;> rfl

theorem jsMax_nan_left (v : JSVal) : jsMax .nan v = .nan := by cases v <;> rfl

theorem jsMax_nan_right (v : JSVal) : jsMax v .nan = .nan := by cases v <;> rfl

theorem jsSub_nan_right (v : JSVal) : jsSub v .nan = .nan := by cases v <;> rfl

theorem foldl_jsMin_nan (l : List JSVal) : l.foldl jsMin .nan = .nan := by
  induction l with
  | nil => rfl
  | cons b t ih => simpa [jsMin_nan_left] using ih

theorem foldl_jsMax_nan (l : List JSVal) : l.foldl jsMax .nan = .nan := by
  induction l with
  | nil => rfl
  | cons b t ih => simpa [jsMax_nan_left] using ih

theorem foldl_jsMin_mem_nan (l : List JSVal) :
    ∀ a : JSVal, JSVal.nan ∈ l → l.foldl jsMin a = .nan := by
  induction l with
  | nil => intro a h; simp at h
  | cons b t ih =>
    intro a h
    rcases List.mem_cons.mp h with hb | ht
    · simp only [List.foldl_cons, ← hb, jsMin_nan_right, foldl_jsMin_nan]
    · simpa using ih _ ht

theorem foldl_jsMax_mem_nan (l : List JSVal) :
    ∀ a : JSVal, JSVal.nan ∈ l → l.foldl jsMax a = .nan := by
  induction l with
  | nil => intro a h; simp at h
  | cons b t ih =>
    intro a h
    rcases List.mem_cons.mp h with hb | ht
    · simp only [List.foldl_cons, ← hb, jsMax_nan_right, foldl_jsMax_nan]
    · simpa using ih _ ht

theorem jsMathMin_of_nan_mem (l : List JSVal) (h : JSVal.nan ∈ l) :
    jsMathMin l = .nan := by
  cases l with
  | nil => simp at h
  | cons a t =>
    rcases List.mem_cons.mp h with ha | ht
    · simp only [jsMathMin, ← ha, foldl_jsMin_nan]
    · exact foldl_jsMin_mem_nan t a ht

theorem jsMathMax_of_nan_mem (l : List JSVal) (h : JSVal.nan ∈ l) :
    jsMathMax l = .nan := by
  cases l with
  | nil => simp at h
  | cons a t =>
    rcases List.mem_cons.mp h with ha | ht
    · simp only [jsMathMax, ← ha, foldl_jsMax_nan]
    · exact foldl_jsMax_mem_nan t a ht

theorem foldl_jsMin_const (c : ℚ) (l : List JSVal) :
    (∀ v ∈ l, v = JSVal.num c) → ∀ a : JSVal, a = .num c →
      l.foldl jsMin a = .num c := by
  induction l with
  | nil => intro _ a ha; simpa using ha
  | cons b t ih =>
    intro h a ha
    have hb := h b (List.mem_cons_self b t)
    have : jsMin a b = .num c := by rw [ha, hb]; simp [jsMin]
    simp only [List.foldl_cons]
    exact ih (fun v hv => h v (List.mem_cons_of_mem _ hv)) _ this

theorem foldl_jsMax_const (c : ℚ) (l : List JSVal) :
    (∀ v ∈ l, v = JSVal.num c) → ∀ a : JSVal, a = .num c →
      l.foldl jsMax a = .num c := by
  induction l with
  | nil => intro _ a ha; simpa using ha
  | cons b t ih =>
    intro h a ha
    have hb := h b (List.mem_cons_self b t)
    have : jsMax a b = .num c := by rw [ha, hb]; simp [jsMax]
    simp only [List.foldl_cons]
    exact ih (fun v hv => h v (List.mem_cons_of_mem _ hv)) _ this

theorem jsMathMin_const (c : ℚ) (l : List JSVal) (hne : l ≠ [])
    (h : ∀ v ∈ l, v = JSVal.num c) : jsMathMin l = .num c := by
  cases l with
  | nil => exact absurd rfl hne
  | cons a t =>
    exact foldl_jsMin_const c t (fun v hv => h v (List.mem_cons_of_mem _ hv)) a
      (h a (List.mem_cons_self a t))

theorem jsMathMax_const (c : ℚ) (l : List JSVal) (hne : l ≠ [])
    (h : ∀ v ∈ l, v = JSVal.num c) : jsMathMax l = .num c := by
  cases l with
  | nil => exact absurd rfl hne
  | cons a t =>
    exact foldl_jsMax_const c t (fun v hv => h v (List.mem_cons_of_mem _ hv)) a
      (h a (List.mem_cons_self a t))

theorem splitOnChar_ne_nil (sep : Char) (l : List Char) :
    splitOnChar sep l ≠ [] := by
  induction l with
  | nil => simp [splitOnChar]
  | cons a rest ih =>
    unfold splitOnChar
    cases h : splitOnChar sep rest with
    | nil => simp
    | cons f fs => dsimp; split <;> simp

theorem foldl_jsMin_num (l : List ℚ) : ∀ q : ℚ,
    (l.map JSVal.num).foldl jsMin (.num q) = .num (l.foldl min q) := by
  induction l with
  | nil => intro q; rfl
  | cons a t ih =>
    intro q
    simpa [jsMin] using ih (min q a)

theorem foldl_jsMax_num (l : List ℚ) : ∀ q : ℚ,
    (l.map JSVal.num).foldl jsMax (.num q) = .num (l.foldl max q) := by
  induction l with
  | nil => intro q; rfl
  | cons a t ih =>
    intro q
    simpa [jsMax] using ih (max q a)

theorem jsMathMin_cons_num (a : ℚ) (l : List ℚ) :
    jsMathMin (.num a :: l.map JSVal.num) = .num (l.foldl min a) := by
  simpa [jsMathMin] using foldl_jsMin_num l a

theorem jsMathMax_cons_num (a : ℚ) (l : List ℚ) :
    jsMathMax (.num a :: l.map JSVal.num) = .num (l.foldl max a) := by
  simpa [jsMathMax] using foldl_jsMax_num l a

theorem foldMin_le_init (l : List ℚ) : ∀ q : ℚ, l.foldl min q ≤ q := by
  induction l with
  | nil => intro q; exact le_refl q
  | cons a t ih => intro q; exact le_trans (ih (min q a)) (min_le_left q a)

theorem foldMax_init_le (l : List ℚ) : ∀ q : ℚ, q ≤ l.foldl max q := by
  induction l with
  | nil => intro q; exact le_refl q
  | cons a t ih => intro q; exact le_trans (le_max_left q a) (ih (max q a))

theorem foldMin_le_mem (l : List ℚ) : ∀ (q x : ℚ), x ∈ l → l.foldl min q ≤ x := by
  induction l with
  | nil => intro q x h; simp at h
  | cons a t ih =>
    intro q x h
    rcases List.mem_cons.mp h with rfl | hx
    · exact le_trans (foldMin_le_init t (min q x)) (min_le_right q x)
    · exact ih (min q a) x hx

theorem foldMax_mem_le (l : List ℚ) : ∀ (q x : ℚ), x ∈ l → x ≤ l.foldl max q := by
  induction l with
  | nil => intro q x h; simp at h
  | cons a t ih =>
    intro q x h
    rcases List.mem_cons.mp h with rfl | hx
    · exact le_trans (le_max_right q x) (foldMax_init_le t (max q x))
    · exact ih (max q a) x hx

theorem foldMin_attained (l : List ℚ) : ∀ q : ℚ,
    l.foldl min q = q ∨ l.foldl min q ∈ l := by
  induction l with
  | nil => intro q; exact Or.inl rfl
  | cons a t ih =>
    intro q
    rcases ih (min q a) with h | h
    · rcases min_cases q a with ⟨h1, _⟩ | ⟨h1, _⟩
      · left; rw [List.foldl_cons, h, h1]
      · right; rw [List.foldl_cons, h, h1]; exact List.mem_cons_self a t
    · right; exact List.mem_cons_of_mem a h

theorem foldMax_attained (l : List ℚ) : ∀ q : ℚ,
    l.foldl max q = q ∨ l.foldl max q ∈ l := by
  induction l with
  | nil => intro q; exact Or.inl rfl
  | cons a t ih =>
    intro q
    rcases ih (max q a) with h | h
    · rcases max_cases q a with ⟨h1, _⟩ | ⟨h1, _⟩
      · left; rw [List.foldl_cons, h, h1]
      · right; rw [List.foldl_cons, h, h1]; exact List.mem_cons_self a t
    · right; exact List.mem_cons_of_mem a h

theorem length_mul_le_sum (l : List ℚ) (m : ℚ) (h : ∀ x ∈ l, m ≤ x) :
    (l.length : ℚ) * m ≤ l.sum := by
  induction l with
  | nil => simp
  | cons a t ih =>
    have ha := h a (List.mem_cons_self a t)
    have ht := ih (fun x hx => h x (List.mem_cons_of_mem a hx))
    simp only [List.length_cons, List.sum_cons]
    push_cast
    linarith

theorem sum_le_length_mul (l : List ℚ) (m : ℚ) (h : ∀ x ∈ l, x ≤ m) :
    l.sum ≤ (l.length : ℚ) * m := by
  induction l with
  | nil => simp
  | cons a t ih =>
    have ha := h a (List.mem_cons_self a t)
    have ht := ih (fun x hx => h x (List.mem_cons_of_mem a hx))
    simp only [List.length_cons, List.sum_cons]
    push_cast
    linarith

theorem foldMin_le_all (a : ℚ) (l : List ℚ) : ∀ x ∈ a :: l, l.foldl min a ≤ x := by
  intro x hx
  rcases List.mem_cons.mp hx with rfl | hm
  · exact foldMin_le_init l x
  · exact foldMin_le_mem l a x hm

theorem foldMax_ge_all (a : ℚ) (l : List ℚ) : ∀ x ∈ a :: l, x ≤ l.foldl max a := by
  intro x hx
  rcases List.mem_cons.mp hx with rfl | hm
  · exact foldMax_init_le l x
  · exact foldMax_mem_le l a x hm

theorem min_le_avg (L : List ℚ) (m : ℚ) (hne : L ≠ []) (hb : ∀ x ∈ L, m ≤ x) :
    m ≤ L.sum / (L.length : ℚ) := by
  have hl : 0 < ((L.length : ℚ)) := by
    have h : 0 < L.length := List.length_pos.mpr hne
    exact_mod_cast h
  rw [le_div_iff₀ hl, mul_comm]
  exact length_mul_le_sum L m hb

theorem avg_le_max (L : List ℚ) (m : ℚ) (hne : L ≠ []) (hb : ∀ x ∈ L, x ≤ m) :
    L.sum / (L.length : ℚ) ≤ m := by
  have hl : 0 < ((L.length : ℚ)) := by
    have h : 0 < L.length := List.length_pos.mpr hne
    exact_mod_cast h
  rw [div_le_iff₀ hl, mul_comm]
  exact sum_le_length_mul L m hb

theorem map_toPoint_x (qs : List (ℚ × ℚ)) :
    (qs.map toPoint).map Point.x = (qs.map Prod.fst).map JSVal.num := by
  simp only [List.map_map]
  rfl

theorem map_toPoint_y (qs : List (ℚ × ℚ)) :
    (qs.map toPoint).map Point.y = (qs.map Prod.snd).map JSVal.num := by
  simp only [List.map_map]
  rfl

theorem foldl_jsAdd_x (qs : List (ℚ × ℚ)) : ∀ q : ℚ,
    (qs.map toPoint).foldl (fun s p => jsAdd s p.x) (.num q) =
      .num (q + (qs.map Prod.fst).sum) := by
  induction qs with
  | nil => intro q; simp
  | cons pr t ih =>
    intro q
    simp only [List.map_cons, List.foldl_cons]
    have h1 : jsAdd (.num q) (toPoint pr).x = .num (q + pr.1) := rfl
    rw [h1, ih]
    congr 1
    simp only [List.map_cons, List.sum_cons]
    ring

theorem foldl_jsAdd_y (qs : List (ℚ × ℚ)) : ∀ q : ℚ,
    (qs.map toPoint).foldl (fun s p => jsAdd s p.y) (.num q) =
      .num (q + (qs.map Prod.snd).sum) := by
  induction qs with
  | nil => intro q; simp
  | cons pr t ih =>
    intro q
    simp only [List.map_cons, List.foldl_cons]
    have h1 : jsAdd (.num q) (toPoint pr).y = .num (q + pr.2) := rfl
    rw [h1, ih]
    congr 1
    simp only [List.map_cons, List.sum_cons]
    ring

/-- The label anchor of a non-empty finite-valued point sequence is the
exact arithmetic mean of the coordinates. -/
theorem findPos_mean (qs : List (ℚ × ℚ)) (t : String) (fs : ℚ) (hne : qs ≠ []) :
    (findOptimalLabelPosition (qs.map toPoint) t fs).position =
      { x := .num ((qs.map Prod.fst).sum / (qs.length : ℚ)),
        y := .num ((qs.map Prod.snd).sum / (qs.length : ℚ)) } := by
  have hlen : ((qs.map toPoint).length : ℚ) = (qs.length : ℚ) := by simp
  have hz : ((qs.length : ℚ)) ≠ 0 := by
    have : qs.length ≠ 0 := by
      simpa [List.length_eq_zero] using hne
    exact_mod_cast this
  simp only [findOptimalLabelPosition]
  rw [hlen, foldl_jsAdd_x qs 0, foldl_jsAdd_y qs 0]
  simp only [jsDiv, if_neg hz, zero_add]

/-- `getBounds` on a non-empty finite-valued point sequence: every field
is the corresponding fold of `min`/`max`, with the width and height the
exact differences. -/
theorem getBounds_fields (q0 : ℚ × ℚ) (tl : List (ℚ × ℚ)) :
    getBounds (((q0 :: tl)).map toPoint) =
      mkBounds ((tl.map Prod.fst).foldl min q0.1) ((tl.map Prod.snd).foldl min q0.2)
        ((tl.map Prod.fst).foldl max q0.1) ((tl.map Prod.snd).foldl max q0.2)
        ((tl.map Prod.fst).foldl max q0.1 - (tl.map Prod.fst).foldl min q0.1)
        ((tl.map Prod.snd).foldl max q0.2 - (tl.map Prod.snd).foldl min q0.2) := by
  have hx : ((q0 :: tl).map toPoint).map Point.x =
      JSVal.num q0.1 :: (tl.map Prod.fst).map JSVal.num := by
    rw [map_toPoint_x]
    simp
  have hy : ((q0 :: tl).map toPoint).map Point.y =
      JSVal.num q0.2 :: (tl.map Prod.snd).map JSVal.num := by
    rw [map_toPoint_y]
    simp
  simp only [getBounds, hx, hy, jsMathMin_cons_num, jsMathMax_cons_num, mkBounds,
    jsSub]

theorem transform_scale_eval (mnx mny mxx mxy w h : ℚ) (hw0 : w ≠ 0) (hh0 : h ≠ 0) :
    (transform (mkBounds mnx mny mxx mxy w h)).scale =
      .num (min ((svgWidth - margin * 2) / w) ((svgHeight - margin * 2) / h)) := by
  simp only [transform, mkBounds, jsDiv, if_neg hw0, if_neg hh0, jsMin]

theorem toSVG_eval (mnx mny mxx mxy w h px py : ℚ) (hw0 : w ≠ 0) (hh0 : h ≠ 0) :
    toSVG (transform (mkBounds mnx mny mxx mxy w h)) { x := .num px, y := .num py } =
      { x := .num (px * min ((svgWidth - margin * 2) / w) ((svgHeight - margin * 2) / h) +
          ((svgWidth - w * min ((svgWidth - margin * 2) / w) ((svgHeight - margin * 2) / h)) / 2 -
            mnx * min ((svgWidth - margin * 2) / w) ((svgHeight - margin * 2) / h))),
        y := .num (svgHeight -
          (py * min ((svgWidth - margin * 2) / w) ((svgHeight - margin * 2) / h) +
            ((svgHeight - h * min ((svgWidth - margin * 2) / w) ((svgHeight - margin * 2) / h)) / 2 -
              mny * min ((svgWidth - margin * 2) / w) ((svgHeight - margin * 2) / h)))) } := by
  simp only [toSVG, transform, mkBounds, jsDiv, if_neg hw0, if_neg hh0,
    if_neg (show ¬(2 : ℚ) = 0 by norm_num), jsMin, jsMul, jsSub, jsAdd]

/-! ### Lemmas for the well-formed-input round trip -/

theorem dropWS_cons_not (c : Char) (t : List Char) (h : isWS c = false) :
    dropWS (c :: t) = c :: t := by
  simp [dropWS, h]

theorem dropWS_id (l : List Char)
    (h : ∀ c, l.head? = some c → isWS c = false) : dropWS l = l := by
  cases l with
  | nil => rfl
  | cons c t => exact dropWS_cons_not c t (h c rfl)

theorem trimChars_id (l : List Char)
    (hh : ∀ c, l.head? = some c → isWS c = false)
    (hl : ∀ c, l.getLast? = some c → isWS c = false) : trimChars l = l := by
  unfold trimChars
  rw [dropWS_id l hh,
    dropWS_id l.reverse (fun c hc => hl c (by rwa [List.head?_reverse] at hc)),
    List.reverse_reverse]

theorem trimChars_cons_space (l : List Char) :
    trimChars (' ' :: l) = trimChars l := by
  have h : dropWS (' ' :: l) = dropWS l := by
    simp [dropWS, show isWS ' ' = true from by decide]
  unfold trimChars
  rw [h]

theorem dropHeadCI_append (pat : List Char) :
    ∀ pre r : List Char, dropHeadCI pat pre = some [] →
      dropHeadCI pat (pre ++ r) = some r := by
  induction pat with
  | nil =>
    intro pre r h
    simp only [dropHeadCI, Option.some.injEq] at h
    subst h
    simp [dropHeadCI]
  | cons p ps ih =>
    intro pre r h
    cases pre with
    | nil => simp [dropHeadCI] at h
    | cons c cs =>
      simp only [dropHeadCI, List.cons_append] at h ⊢
      split at h
      · rename_i hc
        rw [if_pos hc]
        exact ih cs r h
      · exact absurd h (by simp)

theorem dropHeadCI_poly_head (pre : List Char)
    (h : dropHeadCI polyPat pre = some []) :
    ∃ c cs, pre = c :: cs ∧ isWS c = false := by
  have hpat : polyPat = 'P' :: "OLYGON".toList := by decide
  rw [hpat] at h
  cases pre with
  | nil => simp [dropHeadCI] at h
  | cons c cs =>
    refine ⟨c, cs, rfl, ?_⟩
    simp only [dropHeadCI] at h
    split at h
    · rename_i hc
      have hp : c.toLower = 'p' := hc.trans (by decide)
      cases hb : isWS c with
      | false => rfl
      | true =>
        exfalso
        have hcs : ((((c = ' ' ∨ c = '\t') ∨ c = '\n') ∨ c = '\r') ∨
            c = Char.ofNat 11) ∨ c = Char.ofNat 12 := by
          simpa [isWS] using hb
        rcases hcs with ((((rfl | rfl) | rfl) | rfl) | rfl) | rfl <;>
          exact absurd hp (by decide)
    · exact absurd h (by simp)

theorem stripPolyHead_prefix (pre tail : List Char)
    (hpre : dropHeadCI polyPat pre = some []) :
    stripPolyHead (pre ++ '(' :: '(' :: tail) = tail := by
  have hda := dropHeadCI_append polyPat pre ('(' :: '(' :: tail) hpre
  have hdw : dropWS ('(' :: '(' :: tail) = '(' :: '(' :: tail :=
    dropWS_cons_not _ _ (by decide)
  simp only [stripPolyHead, hda, hdw]

theorem stripTailParens_concat (l : List Char) :
    stripTailParens (l ++ [')', ')']) = l := by
  unfold stripTailParens
  have h : (l ++ [')', ')']).reverse = ')' :: ')' :: l.reverse := by simp
  rw [h]
  simp

theorem splitOnChar_not_mem (sep : Char) (l : List Char) (h : sep ∉ l) :
    splitOnChar sep l = [l] := by
  induction l with
  | nil => rfl
  | cons a t ih =>
    have ha : a ≠ sep := fun hc => h (hc ▸ List.mem_cons_self a t)
    have ht : sep ∉ t := fun hc => h (List.mem_cons_of_mem a hc)
    rw [splitOnChar.eq_2, ih ht]
    simp [ha]

theorem splitOnChar_append (sep : Char) (f r : List Char) (hf : sep ∉ f) :
    splitOnChar sep (f ++ sep :: r) = f :: splitOnChar sep r := by
  induction f with
  | nil =>
    simp only [List.nil_append]
    rw [splitOnChar.eq_2]
    cases h : splitOnChar sep r with
    | nil => exact absurd h (splitOnChar_ne_nil sep r)
    | cons g gs => simp
  | cons a f' ih =>
    have ha : a ≠ sep := fun hc => hf (hc ▸ List.mem_cons_self a f')
    have hf' : sep ∉ f' := fun hc => hf (List.mem_cons_of_mem a hc)
    simp only [List.cons_append]
    rw [splitOnChar.eq_2, ih hf']
    simp [ha]

theorem splitOnChar_joinSep (rest : List (List Char)) :
    ∀ a : List Char, ',' ∉ a → (∀ f ∈ rest, ',' ∉ f) →
      splitOnChar ',' (joinSep commaSpace (a :: rest)) =
        a :: rest.map (fun f => ' ' :: f) := by
  induction rest with
  | nil =>
    intro a ha _
    simpa [joinSep] using splitOnChar_not_mem ',' a ha
  | cons b rest' ih =>
    intro a ha hrest
    have hb : ',' ∉ b := hrest b (List.mem_cons_self b rest')
    have hrest' : ∀ f ∈ rest', ',' ∉ f :=
      fun f hf => hrest f (List.mem_cons_of_mem b hf)
    have hj : joinSep commaSpace (a :: b :: rest') =
        a ++ ',' :: ' ' :: joinSep commaSpace (b :: rest') := by
      simp [joinSep, commaSpace]
    rw [hj, splitOnChar_append ',' a _ ha]
    congr 1
    rw [splitOnChar.eq_2, ih b hb hrest']
    simp [show (' ' : Char) ≠ ',' from by decide]

theorem splitWS_single (t : List Char) :
    t ≠ [] → (∀ c ∈ t, isWS c = false) → splitWS t = [t] := by
  induction t with
  | nil => intro h _; exact absurd rfl h
  | cons c t' ih =>
    intro _ h
    have hc : isWS c = false := h c (List.mem_cons_self c t')
    cases t' with
    | nil => simp [splitWS, hc]
    | cons d t'' =>
      have ht' : splitWS (d :: t'') = [d :: t''] :=
        ih (by simp) (fun x hx => h x (List.mem_cons_of_mem c hx))
      rw [splitWS.eq_2, ht']
      simp [hc]

theorem splitWS_space_cons (d : Char) (sy' : List Char)
    (hd : isWS d = false) (hsy : splitWS (d :: sy') = [d :: sy']) :
    splitWS (' ' :: d :: sy') = [[], d :: sy'] := by
  rw [splitWS.eq_2, hsy]
  simp [hd, show isWS ' ' = true from by decide]

theorem splitWS_pair (sx : List Char) :
    ∀ d : Char, ∀ sy' : List Char,
      sx ≠ [] → (∀ c ∈ sx, isWS c = false) →
      isWS d = false → (∀ c ∈ sy', isWS c = false) →
      splitWS (sx ++ ' ' :: d :: sy') = [sx, d :: sy'] := by
  induction sx with
  | nil => intro d sy' h _ _ _; exact absurd rfl h
  | cons c sx' ih =>
    intro d sy' _ hx hd hy
    have hc : isWS c = false := hx c (List.mem_cons_self c sx')
    have hsy : splitWS (d :: sy') = [d :: sy'] :=
      splitWS_single (d :: sy') (by simp)
        (by
          intro x hx'
          rcases List.mem_cons.mp hx' with rfl | hm
          · exact hd
          · exact hy x hm)
    cases sx' with
    | nil =>
      simp only [List.cons_append, List.nil_append]
      rw [splitWS.eq_2, splitWS_space_cons d sy' hd hsy]
      simp [hc]
    | cons c2 sx'' =>
      have hrec := ih d sy' (by simp)
        (fun x hx' => hx x (List.mem_cons_of_mem c hx')) hd hy
      simp only [List.cons_append] at hrec ⊢
      rw [splitWS.eq_2, hrec]
      simp [hc]

theorem getLast?_append_cons (X : List Char) :
    ∀ (d : Char) (Y : List Char), (X ++ d :: Y).getLast? = (d :: Y).getLast? := by
  induction X with
  | nil => intro d Y; rfl
  | cons a X' ih =>
    intro d Y
    cases X' with
    | nil =>
      show (a :: d :: Y).getLast? = (d :: Y).getLast?
      exact List.getLast?_cons_cons
    | cons b X'' =>
      show (a :: (b :: X'' ++ d :: Y)).getLast? = (d :: Y).getLast?
      rw [show (b :: X'' ++ d :: Y) = b :: (X'' ++ d :: Y) from rfl,
        List.getLast?_cons_cons]
      exact ih d Y

theorem getLast?_mem_cons (l : List Char) :
    ∀ (d c : Char), (d :: l).getLast? = some c → c ∈ d :: l := by
  induction l with
  | nil =>
    intro d c h
    rw [List.getLast?_singleton, Option.some.injEq] at h
    simp [h]
  | cons e l' ih =>
    intro d c h
    rw [List.getLast?_cons_cons] at h
    exact List.mem_cons_of_mem d (ih e c h)

theorem comma_not_mem_coordFrag (pr : List Char × List Char)
    (h1 : NumToken pr.1) (h2 : NumToken pr.2) : ',' ∉ coordFrag pr := by
  intro hmem
  rcases List.mem_append.mp hmem with hm | hm
  · exact absurd rfl ((h1.2.1 ',' hm).2)
  · rcases List.mem_cons.mp hm with hsp | hm'
    · exact absurd hsp.symm (by decide)
    · exact absurd rfl ((h2.2.1 ',' hm').2)

theorem parseFragment_coordFrag (sx sy : List Char)
    (h1 : NumToken sx) (h2 : NumToken sy) :
    parseFragment (coordFrag (sx, sy)) = { x := jsNumber sx, y := jsNumber sy } := by
  obtain ⟨hx1, hx2, _⟩ := h1
  obtain ⟨hy1, hy2, _⟩ := h2
  obtain ⟨d, sy', rfl⟩ : ∃ d sy', sy = d :: sy' := by
    cases sy with
    | nil => exact absurd rfl hy1
    | cons d sy' => exact ⟨d, sy', rfl⟩
  have htrim : trimChars (coordFrag (sx, d :: sy')) = coordFrag (sx, d :: sy') := by
    refine trimChars_id _ ?_ ?_
    · intro c hc
      obtain ⟨c0, sx', rfl⟩ : ∃ c0 sx', sx = c0 :: sx' := by
        cases sx with
        | nil => exact absurd rfl hx1
        | cons c0 sx' => exact ⟨c0, sx', rfl⟩
      simp only [coordFrag, List.cons_append, List.head?_cons, Option.some.injEq] at hc
      exact hc ▸ (hx2 c0 (List.mem_cons_self c0 sx')).1
    · intro c hc
      have hlast : (coordFrag (sx, d :: sy')).getLast? = (d :: sy').getLast? := by
        have h1 : coordFrag (sx, d :: sy') = (sx ++ [' ']) ++ d :: sy' := by
          simp [coordFrag]
        rw [h1, getLast?_append_cons]
      rw [hlast] at hc
      exact (hy2 c (getLast?_mem_cons sy' d c hc)).1
  have hsplit : splitWS (trimChars (coordFrag (sx, d :: sy'))) = [sx, d :: sy'] := by
    rw [htrim]
    exact splitWS_pair sx d sy' hx1 (fun c hc => (hx2 c hc).1)
      (hy2 d (List.mem_cons_self d sy')).1
      (fun c hc => (hy2 c (List.mem_cons_of_mem d hc)).1)
  simp [parseFragment, hsplit, jsNumberTok]

theorem parseFragment_cons_space (frag : List Char) :
    parseFragment (' ' :: frag) = parseFragment frag := by
  simp only [parseFragment, trimChars_cons_space]

/-! ## Claim theorems -/

/-- C2: for every point sequence, label text, and font size,
`findOptimalLabelPosition` returns rotation 0, `isInside = true`,
`actualFontSize` equal to the given font size, `textWidth = fontSize × 6`
and `textHeight = fontSize`; the fields are filled from constants and the
font size alone, so no point-in-polygon test influences them. -/
theorem label_fields_constant (points : List Point) (t : String) (fontSize : ℚ) :
    (findOptimalLabelPosition points t fontSize).rotation = 0 ∧
    (findOptimalLabelPosition points t fontSize).isInside = true ∧
    (findOptimalLabelPosition points t fontSize).actualFontSize = fontSize ∧
    (findOptimalLabelPosition points t fontSize).textWidth = fontSize * 6 ∧
    (findOptimalLabelPosition points t fontSize).textHeight = fontSize :=
  ⟨rfl, rfl, rfl, rfl, rfl⟩

/-- C9: every input string that parses to fewer than 3 points is rejected
with the invalid-WKT-format error, and no `RiverData` is produced. -/
theorem too_few_points_rejected (s sourceName : String)
    (h : (parseWKTPolygon s).length < 3) :
    processWKT s sourceName = .error errInvalid := by
  unfold processWKT validatePoints
  rw [if_neg (by omega)]

/-- Witness for C9: a 2-point input produces the invalid-WKT error. -/
theorem too_few_points_rejected_witness :
    (parseWKTPolygon twoPointWKT).length < 3 ∧
    processWKT twoPointWKT manualEntry = .error errInvalid :=
  ⟨by decide, too_few_points_rejected twoPointWKT manualEntry (by decide)⟩

/-- C10: `parseWKTPolygon` returns normally on every input, yielding
exactly one point per comma-separated fragment of the cleaned string
(hence at least one point), and `processWKT` never reports the generic
parse-failure message: the `catch` branch is unreachable in the embedded
(total) pipeline. -/
theorem parse_is_total (s : String) :
    (parseWKTPolygon s).length = (splitOnChar ',' (cleanWKT s.toList)).length ∧
    1 ≤ (parseWKTPolygon s).length ∧
    ∀ sourceName, processWKT s sourceName ≠ .error errGeneric := by
  refine ⟨by simp [parseWKTPolygon, parseWKTPolygonL], ?_, ?_⟩
  · have h := splitOnChar_ne_nil ',' (cleanWKT s.toList)
    have hp : 0 < (splitOnChar ',' (cleanWKT s.toList)).length :=
      List.length_pos.mpr h
    simpa [parseWKTPolygon, parseWKTPolygonL] using hp
  · intro sourceName
    unfold processWKT validatePoints
    split
    · split
      · decide
      · simp
    · decide

/-- C3: for every well-formed input `POLYGON((x1 y1, ..., xn yn))` with
n ≥ 3 numeric coordinate pairs — the keyword matched case-insensitively —
`parseWKTPolygon` returns exactly n points, in input order, with each
point's coordinates the parsed values of the corresponding numeric
tokens. -/
theorem parse_wellformed_input (pre : List Char)
    (prs : List (List Char × List Char))
    (hpre : dropHeadCI polyPat pre = some [])
    (hn : 3 ≤ prs.length)
    (htok : ∀ pr ∈ prs, NumToken pr.1 ∧ NumToken pr.2) :
    parseWKTPolygon (String.mk (mkWKT pre prs)) =
      prs.map (fun pr => { x := jsNumber pr.1, y := jsNumber pr.2 }) ∧
    (parseWKTPolygon (String.mk (mkWKT pre prs))).length = prs.length := by
  obtain ⟨c, cs, hpc, hcw⟩ := dropHeadCI_poly_head pre hpre
  have htrim : trimChars (mkWKT pre prs) = mkWKT pre prs := by
    refine trimChars_id _ ?_ ?_
    · intro c0 hc0
      rw [hpc] at hc0
      simp only [mkWKT, List.cons_append, List.head?_cons, Option.some.injEq] at hc0
      exact hc0 ▸ hcw
    · intro c0 hc0
      have hshape : mkWKT pre prs =
          (pre ++ '(' :: '(' :: (mkWKTBody prs ++ [')'])) ++ ')' :: [] := by
        simp [mkWKT]
      rw [hshape, getLast?_append_cons, List.getLast?_singleton,
        Option.some.injEq] at hc0
      exact hc0 ▸ (by decide)
  have hclean : cleanWKT (mkWKT pre prs) = mkWKTBody prs := by
    unfold cleanWKT
    rw [htrim]
    have hsp : stripPolyHead (mkWKT pre prs) = mkWKTBody prs ++ [')', ')'] := by
      have hform : mkWKT pre prs =
          pre ++ '(' :: '(' :: (mkWKTBody prs ++ [')', ')']) := rfl
      rw [hform]
      exact stripPolyHead_prefix pre _ hpre
    rw [hsp, stripTailParens_concat]
  obtain ⟨pr0, prs', hps⟩ : ∃ pr0 prs', prs = pr0 :: prs' := by
    cases prs with
    | nil => simp at hn
    | cons a b => exact ⟨a, b, rfl⟩
  subst hps
  have hcomma : ∀ pr ∈ pr0 :: prs', ',' ∉ coordFrag pr := fun pr hpr =>
    comma_not_mem_coordFrag pr (htok pr hpr).1 (htok pr hpr).2
  have hsplit : splitOnChar ',' (mkWKTBody (pr0 :: prs')) =
      coordFrag pr0 :: (prs'.map coordFrag).map (fun f => ' ' :: f) := by
    unfold mkWKTBody
    simp only [List.map_cons]
    refine splitOnChar_joinSep (prs'.map coordFrag) (coordFrag pr0)
      (hcomma pr0 (List.mem_cons_self pr0 prs')) ?_
    intro f hf
    rcases List.mem_map.mp hf with ⟨pr, hpr, rfl⟩
    exact hcomma pr (List.mem_cons_of_mem pr0 hpr)
  have hmain : parseWKTPolygon (String.mk (mkWKT pre (pr0 :: prs'))) =
      (pr0 :: prs').map (fun pr => ({ x := jsNumber pr.1, y := jsNumber pr.2 } : Point)) := by
    show parseWKTPolygonL (mkWKT pre (pr0 :: prs')) = _
    unfold parseWKTPolygonL
    rw [hclean, hsplit]
    simp only [List.map_cons, List.map_map]
    congr 1
    · exact parseFragment_coordFrag pr0.1 pr0.2
        (htok pr0 (List.mem_cons_self pr0 prs')).1
        (htok pr0 (List.mem_cons_self pr0 prs')).2
    · refine List.map_congr_left ?_
      intro pr hpr
      show parseFragment (' ' :: coordFrag pr) = _
      rw [parseFragment_cons_space]
      exact parseFragment_coordFrag pr.1 pr.2
        (htok pr (List.mem_cons_of_mem pr0 hpr)).1
        (htok pr (List.mem_cons_of_mem pr0 hpr)).2
  exact ⟨hmain, by rw [hmain]; simp⟩

/-- Witness for C3 at the triangle `POLYGON((0 0, 10 0, 10 10))`. -/
theorem parse_wellformed_input_witness :
    (dropHeadCI polyPat polyPat = some [] ∧
      3 ≤ sampleTokens.length ∧
      (∀ pr ∈ sampleTokens, NumToken pr.1 ∧ NumToken pr.2)) ∧
    (parseWKTPolygon (String.mk (mkWKT polyPat sampleTokens)) =
        sampleTokens.map (fun pr => { x := jsNumber pr.1, y := jsNumber pr.2 }) ∧
      (parseWKTPolygon (String.mk (mkWKT polyPat sampleTokens))).length =
        sampleTokens.length) :=
  ⟨⟨by decide, by decide, by decide⟩,
    parse_wellformed_input polyPat sampleTokens (by decide) (by decide) (by decide)⟩

/-- C5: for every coherent bounds record with strictly positive width and
height, the transform uses the single uniform scale
`min((svgWidth − 2·margin)/width, (svgHeight − 2·margin)/height)`, maps
the centre of the bounds to the viewport centre (400, 300), and flips the
vertical axis (a larger input `y` maps to a smaller screen `y`). -/
theorem viewport_transform_spec (mnx mxx mny mxy w h y1 y2 : ℚ)
    (hwid : w = mxx - mnx) (hhgt : h = mxy - mny)
    (hwpos : 0 < w) (hhpos : 0 < h) (hy12 : y1 < y2) :
    (transform (mkBounds mnx mny mxx mxy w h)).scale =
      .num (min ((svgWidth - 2 * margin) / w) ((svgHeight - 2 * margin) / h)) ∧
    toSVG (transform (mkBounds mnx mny mxx mxy w h))
        { x := .num ((mnx + mxx) / 2), y := .num ((mny + mxy) / 2) } =
      { x := .num 400, y := .num 300 } ∧
    (∃ v1 v2 : ℚ,
      (toSVG (transform (mkBounds mnx mny mxx mxy w h))
        { x := .num mnx, y := .num y1 }).y = .num v1 ∧
      (toSVG (transform (mkBounds mnx mny mxx mxy w h))
        { x := .num mnx, y := .num y2 }).y = .num v2 ∧
      v2 < v1) := by
  have hw0 : w ≠ 0 := ne_of_gt hwpos
  have hh0 : h ≠ 0 := ne_of_gt hhpos
  have hqpos : 0 < min ((svgWidth - margin * 2) / w) ((svgHeight - margin * 2) / h) := by
    refine lt_min (div_pos ?_ hwpos) (div_pos ?_ hhpos) <;>
      norm_num [svgWidth, svgHeight, margin]
  refine ⟨?_, ?_, ?_⟩
  · rw [transform_scale_eval mnx mny mxx mxy w h hw0 hh0]
    have h2 : svgWidth - 2 * margin = svgWidth - margin * 2 := by ring
    have h3 : svgHeight - 2 * margin = svgHeight - margin * 2 := by ring
    rw [h2, h3]
  · rw [toSVG_eval mnx mny mxx mxy w h _ _ hw0 hh0]
    simp only [Point.mk.injEq, JSVal.num.injEq]
    constructor
    · subst hwid
      simp only [svgWidth]
      ring
    · subst hhgt
      simp only [svgHeight]
      ring
  · refine ⟨svgHeight -
      (y1 * min ((svgWidth - margin * 2) / w) ((svgHeight - margin * 2) / h) +
        ((svgHeight - h * min ((svgWidth - margin * 2) / w) ((svgHeight - margin * 2) / h)) / 2 -
          mny * min ((svgWidth - margin * 2) / w) ((svgHeight - margin * 2) / h))),
      svgHeight -
      (y2 * min ((svgWidth - margin * 2) / w) ((svgHeight - margin * 2) / h) +
        ((svgHeight - h * min ((svgWidth - margin * 2) / w) ((svgHeight - margin * 2) / h)) / 2 -
          mny * min ((svgWidth - margin * 2) / w) ((svgHeight - margin * 2) / h))),
      by rw [toSVG_eval mnx mny mxx mxy w h _ _ hw0 hh0],
      by rw [toSVG_eval mnx mny mxx mxy w h _ _ hw0 hh0], ?_⟩
    have hmul := mul_lt_mul_of_pos_right hy12 hqpos
    linarith

/-- Witness for C5 at the bounds (0,0)–(10,5) and the y pair 0 < 1. -/
theorem viewport_transform_spec_witness :
    ((10 : ℚ) = 10 - 0 ∧ (5 : ℚ) = 5 - 0 ∧ (0 : ℚ) < 10 ∧ (0 : ℚ) < 5 ∧
      (0 : ℚ) < 1) ∧
    ((transform (mkBounds 0 0 10 5 10 5)).scale =
      .num (min ((svgWidth - 2 * margin) / 10) ((svgHeight - 2 * margin) / 5)) ∧
    toSVG (transform (mkBounds 0 0 10 5 10 5))
        { x := .num ((0 + 10) / 2), y := .num ((0 + 5) / 2) } =
      { x := .num 400, y := .num 300 } ∧
    (∃ v1 v2 : ℚ,
      (toSVG (transform (mkBounds 0 0 10 5 10 5))
        { x := .num 0, y := .num 0 }).y = .num v1 ∧
      (toSVG (transform (mkBounds 0 0 10 5 10 5))
        { x := .num 0, y := .num 1 }).y = .num v2 ∧
      v2 < v1)) :=
  ⟨⟨by decide, by decide, by decide, by decide, by decide⟩,
    viewport_transform_spec 0 10 0 5 10 5 0 1
      (by decide) (by decide) (by decide) (by decide) (by decide)⟩

/-- Counterexample to C7 as stated: the input
`POLYGON((abc 5, 1 5, 2 5))` contains the malformed token `abc` among 3
comma-separated fragments, yet the caller's validation does report an
error (the constant `y` coordinates give `height = 0`), so no `RiverData`
is produced. -/
theorem malformed_token_claim_counterexample :
    (parseWKTPolygon badTokenFlatWKT).length = 3 ∧
    (∃ p ∈ parseWKTPolygon badTokenFlatWKT, p.x = JSVal.nan) ∧
    processWKT badTokenFlatWKT manualEntry = .error errZero := by decide

/-- C7 (amended): a malformed numeric token becomes the `NaN` sentinel
without any error, the sentinel propagates into the bounds, and —
provided neither computed width nor height equals 0 (the `NaN`-affected
dimension never does, but the check still fires when the other
dimension's extent is exactly zero) — the validation reports no error and
a `RiverData` is produced. -/
theorem malformed_token_silently_accepted (s sourceName : String)
    (h3 : 3 ≤ (parseWKTPolygon s).length)
    (hnan : ∃ p ∈ parseWKTPolygon s, p.x = JSVal.nan ∨ p.y = JSVal.nan)
    (hw : (getBounds (parseWKTPolygon s)).width ≠ JSVal.num 0)
    (hh : (getBounds (parseWKTPolygon s)).height ≠ JSVal.num 0) :
    processWKT s sourceName =
      .ok { name := sourceName, points := parseWKTPolygon s,
            bounds := getBounds (parseWKTPolygon s) } ∧
    ((getBounds (parseWKTPolygon s)).width = JSVal.nan ∨
      (getBounds (parseWKTPolygon s)).height = JSVal.nan) := by
  constructor
  · unfold processWKT validatePoints
    rw [if_pos h3, if_neg (not_or.mpr ⟨hw, hh⟩)]
  · rcases hnan with ⟨p, hp, hx | hy⟩
    · left
      have hmem : JSVal.nan ∈ (parseWKTPolygon s).map Point.x :=
        List.mem_map.mpr ⟨p, hp, hx⟩
      simp only [getBounds, jsMathMin_of_nan_mem _ hmem, jsSub_nan_right]
    · right
      have hmem : JSVal.nan ∈ (parseWKTPolygon s).map Point.y :=
        List.mem_map.mpr ⟨p, hp, hy⟩
      simp only [getBounds, jsMathMin_of_nan_mem _ hmem, jsSub_nan_right]

/-- Witness for the amended C7: `POLYGON((abc 0, 1 1, 2 0))` has a
malformed `x` token, non-degenerate height, and yields a `RiverData`
whose bounds carry the `NaN` sentinel. -/
theorem malformed_token_silently_accepted_witness :
    3 ≤ (parseWKTPolygon badTokenWKT).length ∧
    (∃ p ∈ parseWKTPolygon badTokenWKT, p.x = JSVal.nan ∨ p.y = JSVal.nan) ∧
    (getBounds (parseWKTPolygon badTokenWKT)).width ≠ JSVal.num 0 ∧
    (getBounds (parseWKTPolygon badTokenWKT)).height ≠ JSVal.num 0 ∧
    (processWKT badTokenWKT manualEntry =
      .ok { name := manualEntry, points := parseWKTPolygon badTokenWKT,
            bounds := getBounds (parseWKTPolygon badTokenWKT) } ∧
      ((getBounds (parseWKTPolygon badTokenWKT)).width = JSVal.nan ∨
        (getBounds (parseWKTPolygon badTokenWKT)).height = JSVal.nan)) :=
  ⟨by decide, by decide, by decide, by decide,
    malformed_token_silently_accepted badTokenWKT manualEntry
      (by decide) (by decide) (by decide) (by decide)⟩

/-- C8: every point sequence of at least 3 points whose vertices are
collinear along one axis (all `x` equal or all `y` equal, so the bounds
have zero width or zero height) triggers the degenerate-geometry error,
and no polygon data is produced. -/
theorem collinear_axis_rejected (sourceName : String) (pts : List Point)
    (h3 : 3 ≤ pts.length)
    (hcol : (∃ c, ∀ p ∈ pts, p.x = JSVal.num c) ∨
      (∃ c, ∀ p ∈ pts, p.y = JSVal.num c)) :
    validatePoints sourceName pts = .error errZero := by
  have hne : pts ≠ [] := by
    intro h
    rw [h] at h3
    simp at h3
  have hcond : (getBounds pts).width = JSVal.num 0 ∨
      (getBounds pts).height = JSVal.num 0 := by
    rcases hcol with ⟨c, hc⟩ | ⟨c, hc⟩
    · left
      have hxs : ∀ v ∈ pts.map Point.x, v = JSVal.num c := by
        intro v hv
        rcases List.mem_map.mp hv with ⟨p, hp, rfl⟩
        exact hc p hp
      have hxe : pts.map Point.x ≠ [] := by
        simpa using hne
      simp only [getBounds, jsMathMin_const c _ hxe hxs,
        jsMathMax_const c _ hxe hxs, jsSub, sub_self]
    · right
      have hys : ∀ v ∈ pts.map Point.y, v = JSVal.num c := by
        intro v hv
        rcases List.mem_map.mp hv with ⟨p, hp, rfl⟩
        exact hc p hp
      have hye : pts.map Point.y ≠ [] := by
        simpa using hne
      simp only [getBounds, jsMathMin_const c _ hye hys,
        jsMathMax_const c _ hye hys, jsSub, sub_self]
  unfold validatePoints
  rw [if_pos h3, if_pos hcond]

/-- C1: for every non-empty point sequence the label position equals the
exact unweighted arithmetic mean of all input vertices (the duplicated
closing vertex included); in particular the 5-point square ring
`POLYGON((0 0, 10 0, 10 10, 0 10, 0 0))` gets the label at (4,4), not
(5,5). -/
theorem label_position_is_mean (qs : List (ℚ × ℚ)) (t : String) (fs : ℚ)
    (hne : qs ≠ []) :
    (findOptimalLabelPosition (qs.map toPoint) t fs).position =
      { x := .num ((qs.map Prod.fst).sum / (qs.length : ℚ)),
        y := .num ((qs.map Prod.snd).sum / (qs.length : ℚ)) } ∧
    (parseWKTPolygon squareWKT).length = 5 ∧
    (findOptimalLabelPosition (parseWKTPolygon squareWKT) t fs).position =
      { x := .num 4, y := .num 4 } ∧
    ({ x := .num 4, y := .num 4 } : Point) ≠ { x := .num 5, y := .num 5 } := by
  refine ⟨findPos_mean qs t fs hne, by decide, ?_, by decide⟩
  have h : (findOptimalLabelPosition (parseWKTPolygon squareWKT) t fs).position =
      (findOptimalLabelPosition (parseWKTPolygon squareWKT) manualEntry 0).position := rfl
  rw [h]
  decide

/-- Witness for C1: the mean of the single-point sequence [(1,2)]. -/
theorem label_position_is_mean_witness :
    ([((1 : ℚ), (2 : ℚ))] ≠ [] ∧
      ((findOptimalLabelPosition ([((1 : ℚ), (2 : ℚ))].map toPoint) manualEntry 24).position =
        { x := .num (([((1 : ℚ), (2 : ℚ))].map Prod.fst).sum /
            (([((1 : ℚ), (2 : ℚ))] : List (ℚ × ℚ)).length : ℚ)),
          y := .num (([((1 : ℚ), (2 : ℚ))].map Prod.snd).sum /
            (([((1 : ℚ), (2 : ℚ))] : List (ℚ × ℚ)).length : ℚ)) } ∧
      (parseWKTPolygon squareWKT).length = 5 ∧
      (findOptimalLabelPosition (parseWKTPolygon squareWKT) manualEntry 24).position =
        { x := .num 4, y := .num 4 } ∧
      ({ x := .num 4, y := .num 4 } : Point) ≠ { x := .num 5, y := .num 5 })) :=
  ⟨by decide, label_position_is_mean [((1 : ℚ), (2 : ℚ))] manualEntry 24 (by decide)⟩

/-- C4: on every non-empty finite-valued point sequence, `getBounds`
returns extrema that bound and are attained by the coordinates, with
`width = maxX − minX` and `height = maxY − minY` exactly. -/
theorem getBounds_correct (qs : List (ℚ × ℚ)) (hne : qs ≠ []) :
    ∃ mnx mxx mny mxy : ℚ,
      getBounds (qs.map toPoint) = mkBounds mnx mny mxx mxy (mxx - mnx) (mxy - mny) ∧
      (∀ pr ∈ qs, mnx ≤ pr.1 ∧ pr.1 ≤ mxx ∧ mny ≤ pr.2 ∧ pr.2 ≤ mxy) ∧
      (∃ pr ∈ qs, pr.1 = mnx) ∧ (∃ pr ∈ qs, pr.1 = mxx) ∧
      (∃ pr ∈ qs, pr.2 = mny) ∧ (∃ pr ∈ qs, pr.2 = mxy) := by
  cases qs with
  | nil => exact absurd rfl hne
  | cons q0 tl =>
    refine ⟨(tl.map Prod.fst).foldl min q0.1, (tl.map Prod.fst).foldl max q0.1,
      (tl.map Prod.snd).foldl min q0.2, (tl.map Prod.snd).foldl max q0.2,
      getBounds_fields q0 tl, ?_, ?_, ?_, ?_, ?_⟩
    · intro pr hpr
      rcases List.mem_cons.mp hpr with rfl | hm
      · exact ⟨foldMin_le_init _ _, foldMax_init_le _ _,
          foldMin_le_init _ _, foldMax_init_le _ _⟩
      · exact ⟨foldMin_le_mem _ _ _ (List.mem_map_of_mem Prod.fst hm),
          foldMax_mem_le _ _ _ (List.mem_map_of_mem Prod.fst hm),
          foldMin_le_mem _ _ _ (List.mem_map_of_mem Prod.snd hm),
          foldMax_mem_le _ _ _ (List.mem_map_of_mem Prod.snd hm)⟩
    · rcases foldMin_attained (tl.map Prod.fst) q0.1 with h | h
      · exact ⟨q0, List.mem_cons_self q0 tl, h.symm⟩
      · rcases List.mem_map.mp h with ⟨pr, hpr, hv⟩
        exact ⟨pr, List.mem_cons_of_mem q0 hpr, hv⟩
    · rcases foldMax_attained (tl.map Prod.fst) q0.1 with h | h
      · exact ⟨q0, List.mem_cons_self q0 tl, h.symm⟩
      · rcases List.mem_map.mp h with ⟨pr, hpr, hv⟩
        exact ⟨pr, List.mem_cons_of_mem q0 hpr, hv⟩
    · rcases foldMin_attained (tl.map Prod.snd) q0.2 with h | h
      · exact ⟨q0, List.mem_cons_self q0 tl, h.symm⟩
      · rcases List.mem_map.mp h with ⟨pr, hpr, hv⟩
        exact ⟨pr, List.mem_cons_of_mem q0 hpr, hv⟩
    · rcases foldMax_attained (tl.map Prod.snd) q0.2 with h | h
      · exact ⟨q0, List.mem_cons_self q0 tl, h.symm⟩
      · rcases List.mem_map.mp h with ⟨pr, hpr, hv⟩
        exact ⟨pr, List.mem_cons_of_mem q0 hpr, hv⟩

/-- Witness for C4 at the two-point sequence [(0,0),(1,2)]. -/
theorem getBounds_correct_witness :
    ([((0 : ℚ), (0 : ℚ)), ((1 : ℚ), (2 : ℚ))] ≠ [] ∧
      ∃ mnx mxx mny mxy : ℚ,
        getBounds ([((0 : ℚ), (0 : ℚ)), ((1 : ℚ), (2 : ℚ))].map toPoint) =
          mkBounds mnx mny mxx mxy (mxx - mnx) (mxy - mny) ∧
        (∀ pr ∈ [((0 : ℚ), (0 : ℚ)), ((1 : ℚ), (2 : ℚ))],
          mnx ≤ pr.1 ∧ pr.1 ≤ mxx ∧ mny ≤ pr.2 ∧ pr.2 ≤ mxy) ∧
        (∃ pr ∈ [((0 : ℚ), (0 : ℚ)), ((1 : ℚ), (2 : ℚ))], pr.1 = mnx) ∧
        (∃ pr ∈ [((0 : ℚ), (0 : ℚ)), ((1 : ℚ), (2 : ℚ))], pr.1 = mxx) ∧
        (∃ pr ∈ [((0 : ℚ), (0 : ℚ)), ((1 : ℚ), (2 : ℚ))], pr.2 = mny) ∧
        (∃ pr ∈ [((0 : ℚ), (0 : ℚ)), ((1 : ℚ), (2 : ℚ))], pr.2 = mxy)) :=
  ⟨by decide, getBounds_correct [((0 : ℚ), (0 : ℚ)), ((1 : ℚ), (2 : ℚ))] (by decide)⟩

/-- C6: on every non-empty finite-valued point sequence, the label
position lies within the axis-aligned box of the bounds computed by
`getBounds` on the same sequence. -/
theorem label_position_within_bounds (qs : List (ℚ × ℚ)) (t : String) (fs : ℚ)
    (hne : qs ≠ []) :
    ∃ cx cy mnx mxx mny mxy : ℚ,
      (findOptimalLabelPosition (qs.map toPoint) t fs).position =
        { x := .num cx, y := .num cy } ∧
      (getBounds (qs.map toPoint)).minX = .num mnx ∧
      (getBounds (qs.map toPoint)).maxX = .num mxx ∧
      (getBounds (qs.map toPoint)).minY = .num mny ∧
      (getBounds (qs.map toPoint)).maxY = .num mxy ∧
      mnx ≤ cx ∧ cx ≤ mxx ∧ mny ≤ cy ∧ cy ≤ mxy := by
  cases qs with
  | nil => exact absurd rfl hne
  | cons q0 tl =>
    have hxe : (q0 :: tl).map Prod.fst ≠ [] := by simp
    have hye : (q0 :: tl).map Prod.snd ≠ [] := by simp
    have hxc : (q0 :: tl).map Prod.fst = q0.1 :: tl.map Prod.fst := by simp
    have hyc : (q0 :: tl).map Prod.snd = q0.2 :: tl.map Prod.snd := by simp
    have hlx : ((q0 :: tl).map Prod.fst).length = (q0 :: tl).length := by simp
    have hly : ((q0 :: tl).map Prod.snd).length = (q0 :: tl).length := by simp
    refine ⟨((q0 :: tl).map Prod.fst).sum / (((q0 :: tl)).length : ℚ),
      ((q0 :: tl).map Prod.snd).sum / (((q0 :: tl)).length : ℚ),
      (tl.map Prod.fst).foldl min q0.1, (tl.map Prod.fst).foldl max q0.1,
      (tl.map Prod.snd).foldl min q0.2, (tl.map Prod.snd).foldl max q0.2,
      findPos_mean (q0 :: tl) t fs (by simp),
      by rw [getBounds_fields]; rfl, by rw [getBounds_fields]; rfl,
      by rw [getBounds_fields]; rfl, by rw [getBounds_fields]; rfl,
      ?_, ?_, ?_, ?_⟩
    · rw [← hlx]
      exact min_le_avg _ _ hxe (by rw [hxc]; exact foldMin_le_all q0.1 (tl.map Prod.fst))
    · rw [← hlx]
      exact avg_le_max _ _ hxe (by rw [hxc]; exact foldMax_ge_all q0.1 (tl.map Prod.fst))
    · rw [← hly]
      exact min_le_avg _ _ hye (by rw [hyc]; exact foldMin_le_all q0.2 (tl.map Prod.snd))
    · rw [← hly]
      exact avg_le_max _ _ hye (by rw [hyc]; exact foldMax_ge_all q0.2 (tl.map Prod.snd))

/-- Witness for C6 at the three-point sequence [(0,0),(4,0),(2,6)]. -/
theorem label_position_within_bounds_witness :
    ([((0 : ℚ), (0 : ℚ)), ((4 : ℚ), (0 : ℚ)), ((2 : ℚ), (6 : ℚ))] ≠ [] ∧
      ∃ cx cy mnx mxx mny mxy : ℚ,
        (findOptimalLabelPosition
            ([((0 : ℚ), (0 : ℚ)), ((4 : ℚ), (0 : ℚ)), ((2 : ℚ), (6 : ℚ))].map toPoint)
            manualEntry 24).position = { x := .num cx, y := .num cy } ∧
        (getBounds ([((0 : ℚ), (0 : ℚ)), ((4 : ℚ), (0 : ℚ)), ((2 : ℚ), (6 : ℚ))].map
          toPoint)).minX = .num mnx ∧
        (getBounds ([((0 : ℚ), (0 : ℚ)), ((4 : ℚ), (0 : ℚ)), ((2 : ℚ), (6 : ℚ))].map
          toPoint)).maxX = .num mxx ∧
        (getBounds ([((0 : ℚ), (0 : ℚ)), ((4 : ℚ), (0 : ℚ)), ((2 : ℚ), (6 : ℚ))].map
          toPoint)).minY = .num mny ∧
        (getBounds ([((0 : ℚ), (0 : ℚ)), ((4 : ℚ), (0 : ℚ)), ((2 : ℚ), (6 : ℚ))].map
          toPoint)).maxY = .num mxy ∧
        mnx ≤ cx ∧ cx ≤ mxx ∧ mny ≤ cy ∧ cy ≤ mxy) :=
  ⟨by decide, label_position_within_bounds
    [((0 : ℚ), (0 : ℚ)), ((4 : ℚ), (0 : ℚ)), ((2 : ℚ), (6 : ℚ))] manualEntry 24 (by decide)⟩

/-- Witness for C8: three points on the vertical line `x = 0` are
rejected with the zero-area error. -/
theorem collinear_axis_rejected_witness :
    3 ≤ ([⟨.num 0, .num 0⟩, ⟨.num 0, .num 1⟩, ⟨.num 0, .num 2⟩] :
      List Point).length ∧
    ((∃ c, ∀ p ∈ ([⟨.num 0, .num 0⟩, ⟨.num 0, .num 1⟩, ⟨.num 0, .num 2⟩] :
        List Point), p.x = JSVal.num c) ∨
      (∃ c, ∀ p ∈ ([⟨.num 0, .num 0⟩, ⟨.num 0, .num 1⟩, ⟨.num 0, .num 2⟩] :
        List Point), p.y = JSVal.num c)) ∧
    validatePoints manualEntry
      [⟨.num 0, .num 0⟩, ⟨.num 0, .num 1⟩, ⟨.num 0, .num 2⟩] =
      .error errZero :=
  ⟨by decide, Or.inl ⟨0, by decide⟩,
    collinear_axis_rejected manualEntry _ (by decide) (Or.inl ⟨0, by decide⟩)⟩

end RiverSense
